import Mathlib

/-!
Verification of the audit policy rule evaluator in
`pkg/audit/policy/checker.go`.

Go strings are modelled as lists of characters (`Str`).  The Go standard
library helpers used by the checker are embedded as list functions at their
concrete call sites: the initial-segment test, the final-segment test,
`TrimRight` with cutset `"*"`, removal of the leading `"*/"` and removal of
the trailing `"/*"`.

The types `audit.Policy`, `audit.PolicyRule`, `audit.GroupResources`,
`authorizer.Attributes`, `user.Info` and the result type
`RequestAuditConfigWithLevel` are declared outside this repository; their
fields are reproduced here exactly as the checker reads them (a nil Go
interface or pointer becomes `Option`, a Go `bool` zero value is `false`).
-/

/-- A Go string, modelled as its list of characters. -/
abbrev Str := List Char

/-- Embeds a Lean string literal as a character list. -/
def strLit (s : String) : Str := s.data

/-- Go test that `pre` is an initial segment of `s`. -/
def strStartsWith (s pre : Str) : Bool := pre.isPrefixOf s

/-- Go test that `suf` is a final segment of `s`. -/
def strEndsWith (s suf : Str) : Bool := suf.isSuffixOf s

/-- Go TrimRight with cutset consisting of the star character: removes every
trailing star. -/
def trimStarsRight (s : Str) : Str :=
  (s.reverse.dropWhile (fun c => c == '*')).reverse

/-- audit.GroupResources: one resource tuple of a rule. -/
structure GroupResources where
  group : Str := []
  resources : List Str := []
  resourceNames : List Str := []
deriving DecidableEq

/-- audit.PolicyRule, with exactly the fields the checker reads. -/
structure PolicyRule where
  level : Str := []
  users : List Str := []
  userGroups : List Str := []
  verbs : List Str := []
  resources : List GroupResources := []
  namespaces : List Str := []
  nonResourceURLs : List Str := []
  omitStages : List Str := []
  omitManagedFields : Option Bool := none
deriving DecidableEq

/-- audit.Policy: ordered rules plus policy-wide defaults. -/
structure Policy where
  rules : List PolicyRule := []
  omitStages : List Str := []
  omitManagedFields : Bool := false
deriving DecidableEq

/-- user.Info as read by the checker: a name and group memberships. -/
structure UserInfo where
  name : Str := []
  groups : List Str := []
deriving DecidableEq

/-- authorizer.Attributes as read by the checker.  A request with no
requester identity (anonymous) has `user = none`, matching a nil Go
interface value. -/
structure Attributes where
  user : Option UserInfo := none
  verb : Str := []
  isReadOnly : Bool := false
  ns : Str := []
  resource : Str := []
  subresource : Str := []
  name : Str := []
  apiGroup : Str := []
  apiVersion : Str := []
  isResourceRequest : Bool := false
  path : Str := []
deriving DecidableEq

/-- auditinternal.RequestAuditConfigWithLevel: the disposition returned by
one evaluation. -/
structure RequestAuditConfigWithLevel where
  level : Str
  omitStages : List Str
  omitManagedFields : Bool
deriving DecidableEq

/-- Modelled from the spec: the no-auditing audit level (audit.LevelNone,
declared in the external audit API package, not under src). -/
def LevelNone : Str := strLit "None"

/-- checker.go line 30: the default level when no policy rule matches. -/
def DefaultAuditLevel : Str := LevelNone

/-- checker.go hasString: whether a string slice contains a value. -/
def hasString (slice : List Str) (value : Str) : Bool :=
  slice.any (fun s => s == value)

/-- checker.go pathMatches: full wildcard, exact match, or trailing star
treated as a match on the initial segment left after trimming stars. -/
def pathMatches (path spec : Str) : Bool :=
  if spec == ['*'] then true
  else if spec == path then true
  else if strEndsWith spec ['*'] && strStartsWith path (trimStarsRight spec) then true
  else false

/-- checker.go ruleMatchesNonResource: only non-resource requests can match,
and the request path must satisfy at least one declared path spec. -/
def ruleMatchesNonResource (r : PolicyRule) (attrs : Attributes) : Bool :=
  if attrs.isResourceRequest then false
  else r.nonResourceURLs.any (fun spec => pathMatches attrs.path spec)

/-- checker.go lines 298-302: the combined resource string, equal to the
resource itself when the subresource is empty. -/
def combinedApiResource (attrs : Attributes) : Str :=
  if attrs.subresource == [] then attrs.resource
  else attrs.resource ++ '/' :: attrs.subresource

/-- Body of the inner loop of ruleMatchesResource (checker.go lines 311-325):
one declared resource spec against the request, after the name filter. -/
def resourceSpecMatches (res resource subresource combined : Str) : Bool :=
  res == combined || res == ['*'] ||
    (!subresource.isEmpty && strStartsWith res ['*', '/'] && subresource == res.drop 2) ||
    (strEndsWith res ['/', '*'] && resource == res.dropLast.dropLast)

/-- checker.go ruleMatchesResource. -/
def ruleMatchesResource (r : PolicyRule) (attrs : Attributes) : Bool :=
  if !attrs.isResourceRequest then false
  else if !r.namespaces.isEmpty && !hasString r.namespaces attrs.ns then false
  else if r.resources.isEmpty then true
  else
    r.resources.any (fun gr =>
      gr.group == attrs.apiGroup &&
        (gr.resources.isEmpty ||
          gr.resources.any (fun res =>
            (gr.resourceNames.isEmpty || hasString gr.resourceNames attrs.name) &&
              resourceSpecMatches res attrs.resource attrs.subresource
                (combinedApiResource attrs))))

/-- checker.go ruleMatches: identity, verb and target dimensions in the
order of the source, each early-returning false on failure. -/
def ruleMatches (r : PolicyRule) (attrs : Attributes) : Bool :=
  let userOk :=
    if r.users.isEmpty then true
    else match attrs.user with
      | none => false
      | some u => hasString r.users u.name
  let groupOk :=
    if r.userGroups.isEmpty then true
    else match attrs.user with
      | none => false
      | some u => u.groups.any (fun g => hasString r.userGroups g)
  let verbOk := if r.verbs.isEmpty then true else hasString r.verbs attrs.verb
  if !userOk then false
  else if !groupOk then false
  else if !verbOk then false
  else if !r.namespaces.isEmpty || !r.resources.isEmpty then ruleMatchesResource r attrs
  else if !r.nonResourceURLs.isEmpty then ruleMatchesNonResource r attrs
  else true

/-- checker.go isOmitManagedFields: a per-rule setting overrides the
policy-wide default; an absent setting falls back to the default. -/
def isOmitManagedFields (r : PolicyRule) (policyDefault : Bool) : Bool :=
  match r.omitManagedFields with
  | none => policyDefault
  | some b => b

/-- The disposition EvaluatePolicyRule builds from a matched rule
(checker.go lines 176-183). -/
def ruleDisposition (p : Policy) (r : PolicyRule) : RequestAuditConfigWithLevel :=
  { level := r.level, omitStages := r.omitStages,
    omitManagedFields := isOmitManagedFields r p.omitManagedFields }

/-- The disposition EvaluatePolicyRule builds when no rule matches
(checker.go lines 186-192). -/
def defaultDisposition (p : Policy) : RequestAuditConfigWithLevel :=
  { level := DefaultAuditLevel, omitStages := p.omitStages,
    omitManagedFields := p.omitManagedFields }

/-- Returned value of checker.go EvaluatePolicyRule: rules are scanned in
declaration order and the first match decides; the default disposition is
returned when none matches. -/
def evaluatePolicyRule (p : Policy) (attrs : Attributes) : RequestAuditConfigWithLevel :=
  match p.rules.find? (fun r => ruleMatches r attrs) with
  | some r => ruleDisposition p r
  | none => defaultDisposition p

/-- Rendering of a Bool by the %t verb of Go fmt. -/
def boolStr (b : Bool) : Str := if b then strLit "true" else strLit "false"

/-- Modelled from the spec: rendering of the user.Info value by the %s verb
of Go fmt (the concrete user type and the fmt package are external
collaborators not under src).  A nil interface renders as the Go fmt nil
marker; the theorems below do not depend on this rendering. -/
def showUser : Option UserInfo → Str
  | none => strLit "%!s(<nil>)"
  | some u => u.name

/-- The separator of the debug dump: a line of 63 equals signs, as in the
raw template of checker.go. -/
def sepLine : Str := List.replicate 63 '='

/-- Text written to standard output by every call of checker.go
EvaluatePolicyRule (the fmt.Printf at lines 143-172): the verbatim raw
format template with the attribute values spliced in. -/
def evalStdout (attrs : Attributes) : Str :=
  strLit "\n\n" ++ sepLine ++ strLit "\n\tattrs:\n\t\tUser: " ++ showUser attrs.user
    ++ strLit "\n\t\tVerb: " ++ attrs.verb
    ++ strLit "\n\t\tIsReadOnly: " ++ boolStr attrs.isReadOnly
    ++ strLit "\n\t\tNamespace: " ++ attrs.ns
    ++ strLit "\n\t\tResource: " ++ attrs.resource
    ++ strLit "\n\t\tSubresource: " ++ attrs.subresource
    ++ strLit "\n\t\tName: " ++ attrs.name
    ++ strLit "\n\t\tAPIGroup: " ++ attrs.apiGroup
    ++ strLit "\n\t\tAPIVersion: " ++ attrs.apiVersion
    ++ strLit "\n\t\tIsResourceRequest: " ++ boolStr attrs.isResourceRequest
    ++ strLit "\n\t\tPath: " ++ attrs.path
    ++ strLit "\n" ++ sepLine ++ strLit "\n\n\t"

/-- Observable behavior of one EvaluatePolicyRule call: the text written to
standard output paired with the returned disposition. -/
def evaluatePolicyRuleRun (p : Policy) (attrs : Attributes) : Str × RequestAuditConfigWithLevel :=
  (evalStdout attrs, evaluatePolicyRule p attrs)

/-- checker.go unionStages at its call site with two stage lists: the Go map
collects every stage once; Go map iteration order is unspecified, so the
result is modelled as one concrete duplicate-free enumeration of the union. -/
def unionStages (l1 l2 : List Str) : List Str := (l1 ++ l2).dedup

/-- The normalization loop of NewPolicyRuleEvaluator (checker.go lines
35-37): every rule gets the union of the policy-wide omitStages and its own
declared omitStages. -/
def normalizeRules (p : Policy) : Policy :=
  { p with
    rules := p.rules.map (fun r => { r with omitStages := unionStages p.omitStages r.omitStages }) }

/-- checker.go NewPolicyRuleEvaluator: runs the normalization loop and then
a debug dump of every rule; the dump dereferences rule.OmitManagedFields
(line 106), so the function panics instead of returning whenever some rule
leaves that optional field absent.  The panic is modelled as `none`. -/
def newPolicyRuleEvaluator (p : Policy) : Option Policy :=
  let np := normalizeRules p
  if np.rules.all (fun r => r.omitManagedFields.isSome) then some np else none

/-- checker.go fakePolicyRuleEvaluator: the configured constant level and
stages. -/
structure FakePolicyRuleEvaluator where
  level : Str
  stage : List Str
deriving DecidableEq

/-- checker.go fakePolicyRuleEvaluator.EvaluatePolicyRule: ignores the
attributes; the omitManagedFields field is left at the Go zero value false. -/
def fakeEvaluatePolicyRule (f : FakePolicyRuleEvaluator) (_ : Attributes) : RequestAuditConfigWithLevel :=
  { level := f.level, omitStages := f.stage, omitManagedFields := false }

/-! ## Concrete policies, rules and attributes used in the theorems below -/

/-- Scenario 3 rule: one tuple for the core API group with the single
resource spec pods slash star. -/
def podsStarRule : PolicyRule :=
  { level := strLit "Metadata",
    resources := [{ group := [], resources := [strLit "pods/*"] }] }

/-- A typed-resource request for pods in the core group with the given
subresource. -/
def podsAttrs (sub : Str) : Attributes :=
  { verb := strLit "get", resource := strLit "pods", subresource := sub,
    apiGroup := [], isResourceRequest := true }

/-- A policy with one rule that leaves the optional omitManagedFields field
absent. -/
def nilManagedFieldsPolicy : Policy :=
  { rules := [{ level := strLit "Metadata" }] }

/-- Scenario 1 policy: one Metadata rule for verb get on pods in the core
group. -/
def scen1Policy : Policy :=
  { rules := [{ level := strLit "Metadata", verbs := [strLit "get"],
                resources := [{ group := [], resources := [strLit "pods"] }] }] }

/-- Scenario 2 attributes: a list request on pods, matching no rule of
scen1Policy. -/
def listAttrs : Attributes :=
  { verb := strLit "list", resource := strLit "pods", isResourceRequest := true }

/-- A rule constraining only the requester identity. -/
def usersOnlyRule : PolicyRule :=
  { level := strLit "Metadata", users := [strLit "alice"] }

/-- An anonymous request: no requester identity present. -/
def anonAttrs : Attributes := { verb := strLit "get" }

/-- A rule matching the verb get. -/
def verbGetRule : PolicyRule :=
  { level := strLit "Metadata", verbs := [strLit "get"] }

/-- A rule with no predicate fields: matches every request. -/
def catchAllRule : PolicyRule := { level := strLit "RequestResponse" }

/-- Two rules that both match a get request; the first one is declared
earlier. -/
def twoRulePolicy : Policy := { rules := [verbGetRule, catchAllRule] }

/-- A request with verb get and nothing else set. -/
def getAttrs : Attributes := { verb := strLit "get" }

/-- Scenario 5 rule: declares omitStages ResponseComplete. -/
def stageRule : PolicyRule :=
  { level := strLit "Metadata", omitStages := [strLit "ResponseComplete"] }

/-- Scenario 5 policy: policy-wide omitStages RequestReceived over
stageRule. -/
def stagePolicy : Policy :=
  { rules := [stageRule], omitStages := [strLit "RequestReceived"] }

/-- A rule whose single resource tuple declares only an API group. -/
def groupOnlyRule (g : Str) : PolicyRule :=
  { level := strLit "Metadata", resources := [{ group := g }] }

/-- A typed-resource request whose API group is the literal string x. -/
def starGroupAttrs : Attributes :=
  { verb := strLit "get", resource := strLit "pods", apiGroup := strLit "x",
    isResourceRequest := true }

/-- The literal opening of the debug dump template printed by
EvaluatePolicyRule. -/
def stdoutBanner : Str :=
  strLit "\n\n" ++ sepLine ++ strLit "\n\tattrs:"

/-! ## Claims -/

/-- C1, counterexample to the claim as stated.  The claim says a request for
resourceType pods with empty subresource does not match the rule declaring
the spec pods slash star; the code matches it, because the trailing-wildcard
branch of ruleMatchesResource compares the bare resource without requiring a
non-empty subresource. -/
theorem c1_pods_star_empty_subresource_counterexample :
    ruleMatches podsStarRule (podsAttrs []) = true := by decide

/-- C1, amended.  For a rule declaring the resource type spec pods slash
star in the core API group, a typed-resource request with resourceType pods
matches for every subresource, empty or not. -/
theorem c1_pods_star_matches_any_subresource (sub : Str) :
    ruleMatches podsStarRule (podsAttrs sub) = true := by
  have hd : (strEndsWith (strLit "pods/*") ['/', '*'] &&
      (strLit "pods" == (strLit "pods/*").dropLast.dropLast)) = true := by decide
  simp [ruleMatches, podsStarRule, podsAttrs, ruleMatchesResource,
    resourceSpecMatches, hd]

/-- C2.  Constructing the evaluator is claimed to have no error conditions,
in particular for rules whose optional omitManagedFields field is absent.
The code contradicts this: the debug dump inside NewPolicyRuleEvaluator
dereferences the field unconditionally, so construction panics (modelled as
none) on such a policy instead of returning an evaluator. -/
theorem c2_construction_panics_on_absent_omitManagedFields :
    newPolicyRuleEvaluator nilManagedFieldsPolicy = none := by decide

/-- C9.  The constant-disposition evaluator ignores the request attributes:
any two attribute values give the same result, and that result is the
configured level and stages with omitManagedFields false. -/
theorem c9_fake_evaluator_constant (f : FakePolicyRuleEvaluator) (a b : Attributes) :
    fakeEvaluatePolicyRule f a = fakeEvaluatePolicyRule f b ∧
      fakeEvaluatePolicyRule f a =
        { level := f.level, omitStages := f.stage, omitManagedFields := false } :=
  ⟨rfl, rfl⟩

/-- C5.  When no rule matches the request, EvaluatePolicyRule returns the
default disposition: the no-auditing level, the policy-wide omitStages and
the policy-wide omitManagedFields default. -/
theorem c5_default_disposition_when_no_rule_matches (p : Policy) (attrs : Attributes)
    (h : ∀ r ∈ p.rules, ruleMatches r attrs = false) :
    evaluatePolicyRule p attrs =
      { level := LevelNone, omitStages := p.omitStages,
        omitManagedFields := p.omitManagedFields } := by
  have hf : p.rules.find? (fun r => ruleMatches r attrs) = none :=
    List.find?_eq_none.mpr (fun x hx => by simp [h x hx])
  simp [evaluatePolicyRule, hf, defaultDisposition, DefaultAuditLevel]

/-- C5, witness: the Scenario 2 request matches no rule of the Scenario 1
policy and receives the default disposition. -/
theorem c5_default_disposition_when_no_rule_matches_witness :
    evaluatePolicyRule scen1Policy listAttrs =
      { level := LevelNone, omitStages := scen1Policy.omitStages,
        omitManagedFields := scen1Policy.omitManagedFields } :=
  c5_default_disposition_when_no_rule_matches scen1Policy listAttrs (by decide)

/-- C7.  A rule declaring a non-empty users set or a non-empty userGroups
set never matches a request without requester identity; the absence is a
non-match, not an error. -/
theorem c7_fail_closed_identity (r : PolicyRule) (attrs : Attributes)
    (hanon : attrs.user = none) (hne : r.users ≠ [] ∨ r.userGroups ≠ []) :
    ruleMatches r attrs = false := by
  rcases hne with h | h
  · have hu : r.users.isEmpty = false := by
      cases hr : r.users with
      | nil => exact absurd hr h
      | cons a t => rfl
    simp [ruleMatches, hanon, hu]
  · have hg : r.userGroups.isEmpty = false := by
      cases hr : r.userGroups with
      | nil => exact absurd hr h
      | cons a t => rfl
    cases hu : r.users.isEmpty <;> simp [ruleMatches, hanon, hu, hg]

/-- C7, witness: the rule declaring users alice does not match an anonymous
get request. -/
theorem c7_fail_closed_identity_witness :
    ruleMatches usersOnlyRule anonAttrs = false :=
  c7_fail_closed_identity usersOnlyRule anonAttrs (by decide) (Or.inl (by decide))

/-- After trimming trailing stars the result is an initial segment of the
original list. -/
theorem trimStarsRight_initial (s : Str) : trimStarsRight s <+: s := by
  have h := List.dropWhile_suffix (l := s.reverse) (fun c => c == '*')
  have h2 := List.reverse_prefix.mpr h
  simpa [trimStarsRight] using h2

/-- Trimming trailing stars absorbs a final star. -/
theorem trimStarsRight_concat_star (t : Str) :
    trimStarsRight (t ++ ['*']) = trimStarsRight t := by
  simp [trimStarsRight, List.reverse_append]

/-- C8.  Non-resource path matching: the full wildcard spec matches every
path; a spec not ending in a star matches exactly the identical path; a spec
ending in a star matches every path that extends the spec minus its final
star; and the spec slash-a-p-i-star matches the paths slash-a-p-i and
slash-a-p-i-s-slash-f-o-o but not slash-a-p. -/
theorem c8_path_spec_semantics :
    (∀ path : Str, pathMatches path ['*'] = true) ∧
    (∀ spec path : Str, strEndsWith spec ['*'] = false →
      (pathMatches path spec = true ↔ path = spec)) ∧
    (∀ spec path : Str, strEndsWith spec ['*'] = true →
      strStartsWith path spec.dropLast = true → pathMatches path spec = true) ∧
    (pathMatches (strLit "/api") (strLit "/api*") = true ∧
      pathMatches (strLit "/apis/foo") (strLit "/api*") = true ∧
      pathMatches (strLit "/ap") (strLit "/api*") = false) := by
  refine ⟨?_, ?_, ?_, by decide⟩
  · intro path; simp [pathMatches]
  · intro spec path h
    have hne : (spec == ['*']) = false := by
      cases hsp : spec == ['*'] with
      | false => rfl
      | true =>
        exfalso
        have hspec : spec = ['*'] := by simpa using hsp
        subst hspec
        simp [strEndsWith, List.isSuffixOf] at h
    have hred : pathMatches path spec = decide (spec = path) := by
      simp [pathMatches, hne, h]
    rw [hred]
    simp only [decide_eq_true_eq]
    exact eq_comm
  · intro spec path h1 h2
    have h1' : ['*'] <:+ spec := List.isSuffixOf_iff_suffix.mp h1
    obtain ⟨t, ht⟩ := h1'
    subst ht
    rw [List.dropLast_concat] at h2
    have hpre : trimStarsRight (t ++ ['*']) <+: path := by
      rw [trimStarsRight_concat_star]
      exact (trimStarsRight_initial t).trans (List.isPrefixOf_iff_prefix.mp h2)
    have hstart : strStartsWith path (trimStarsRight (t ++ ['*'])) = true :=
      List.isPrefixOf_iff_prefix.mpr hpre
    unfold pathMatches
    split
    · rfl
    · split
      · rfl
      · simp [h1, hstart]

/-- C8, witness: a trailing-star spec accepts a strict extension of its stem,
by the third component of the path semantics theorem. -/
theorem c8_path_spec_semantics_witness :
    pathMatches (strLit "/healthz/ping") (strLit "/healthz*") = true :=
  c8_path_spec_semantics.2.2.1 (strLit "/healthz*") (strLit "/healthz/ping")
    (by decide) (by decide)

/-- C10.  The API group of a resource tuple is compared to the request API
group by exact string equality only: a rule whose single tuple declares
group g matches a typed-resource request exactly when the request group is
the literal g (so a tuple group star matches only the literal star group),
and any rule with declared resources that matches has some tuple whose group
equals the request group exactly. -/
theorem c10_api_group_exact_equality (g : Str) (attrs : Attributes)
    (hres : attrs.isResourceRequest = true) :
    (ruleMatchesResource (groupOnlyRule g) attrs = true ↔ attrs.apiGroup = g) ∧
    (∀ r : PolicyRule, r.resources ≠ [] → ruleMatchesResource r attrs = true →
      ∃ gr ∈ r.resources, gr.group = attrs.apiGroup) := by
  constructor
  · have hred : ruleMatchesResource (groupOnlyRule g) attrs = (g == attrs.apiGroup) := by
      simp [ruleMatchesResource, groupOnlyRule, hres]
    rw [hred, beq_iff_eq]
    exact eq_comm
  · intro r hner hm
    have hne' : r.resources.isEmpty = false := by
      cases hr : r.resources with
      | nil => exact absurd hr hner
      | cons a t => rfl
    unfold ruleMatchesResource at hm
    rw [hres] at hm
    simp only [Bool.not_true, Bool.false_eq_true, if_false, hne'] at hm
    split at hm
    · exact absurd hm (by simp)
    · rw [List.any_eq_true] at hm
      obtain ⟨gr, hgr, hf⟩ := hm
      have hgeq : (gr.group == attrs.apiGroup) = true := by
        cases hq : gr.group == attrs.apiGroup with
        | true => rfl
        | false => rw [hq] at hf; simp at hf
      exact ⟨gr, hgr, by simpa using hgeq⟩

/-- C10, witness: a tuple declaring group star does not match a request in
group x, by the exact-equality theorem. -/
theorem c10_api_group_exact_equality_witness :
    (ruleMatchesResource (groupOnlyRule (strLit "*")) starGroupAttrs = true ↔
      starGroupAttrs.apiGroup = strLit "*") ∧
    (∀ r : PolicyRule, r.resources ≠ [] →
      ruleMatchesResource r starGroupAttrs = true →
      ∃ gr ∈ r.resources, gr.group = starGroupAttrs.apiGroup) :=
  c10_api_group_exact_equality (strLit "*") starGroupAttrs (by decide)

/-- A satisfied index gives a least satisfied index, and find? returns the
element there. -/
theorem find_first_aux {α : Type} (pred : α → Bool) (l : List α) :
    ∀ (i : Nat) (hi : i < l.length), pred l[i] = true →
      ∃ (k : Nat) (hk : k < l.length), k ≤ i ∧ pred l[k] = true ∧
        (∀ (m : Nat) (hm : m < l.length), m < k → pred l[m] = false) ∧
        l.find? pred = some l[k] := by
  induction l with
  | nil => intro i hi; simp at hi
  | cons a t ih =>
    intro i hi hp
    by_cases ha : pred a = true
    · refine ⟨0, by simp, Nat.zero_le i, by simpa using ha, ?_, ?_⟩
      · intro m hm hmk; omega
      · simp [List.find?_cons_of_pos _ ha]
    · have ha' : pred a = false := by
        cases hpa : pred a with
        | false => rfl
        | true => exact absurd hpa ha
      match i with
      | 0 =>
        rw [List.getElem_cons_zero] at hp
        exact absurd hp ha
      | (i' + 1) =>
        have hi' : i' < t.length := by simpa using hi
        have hp' : pred t[i'] = true := by
          rw [List.getElem_cons_succ] at hp; exact hp
        obtain ⟨k, hk, hki, hpk, hfirst, hfind⟩ := ih i' hi' hp'
        refine ⟨k + 1, by simpa using hk, Nat.succ_le_succ hki, ?_, ?_, ?_⟩
        · rw [List.getElem_cons_succ]; exact hpk
        · intro m hm hmk
          match m with
          | 0 => rw [List.getElem_cons_zero]; exact ha'
          | (m' + 1) =>
            rw [List.getElem_cons_succ]
            exact hfirst m' (by simpa using hm) (by omega)
        · rw [List.find?_cons_of_neg _ ha, List.getElem_cons_succ]
          exact hfind

/-- C4.  First-match precedence: whenever two rules at positions i and j,
with i earlier than j, both match the request, the returned disposition is
the one of the first matching rule, whose position is at most i — never the
one at j.  Rules are scanned in declaration order with a short circuit at
the first match. -/
theorem c4_first_match_precedence (p : Policy) (attrs : Attributes) (i j : Nat)
    (hi : i < p.rules.length) (hij : i < j) (hj : j < p.rules.length)
    (hmi : ruleMatches p.rules[i] attrs = true)
    (hmj : ruleMatches p.rules[j] attrs = true) :
    ∃ (k : Nat) (hk : k < p.rules.length), k ≤ i ∧
      ruleMatches p.rules[k] attrs = true ∧
      (∀ (m : Nat) (hm : m < p.rules.length), m < k →
        ruleMatches p.rules[m] attrs = false) ∧
      evaluatePolicyRule p attrs = ruleDisposition p p.rules[k] := by
  obtain ⟨k, hk, hki, hpk, hfirst, hfind⟩ :=
    find_first_aux (fun r => ruleMatches r attrs) p.rules i hi hmi
  exact ⟨k, hk, hki, hpk, hfirst, by simp [evaluatePolicyRule, hfind]⟩

/-- C4, witness: in the two-rule policy both rules match the get request and
the evaluation returns the disposition of the rule declared first. -/
theorem c4_first_match_precedence_witness :
    ∃ (k : Nat) (hk : k < twoRulePolicy.rules.length), k ≤ 0 ∧
      ruleMatches twoRulePolicy.rules[k] getAttrs = true ∧
      (∀ (m : Nat) (hm : m < twoRulePolicy.rules.length), m < k →
        ruleMatches twoRulePolicy.rules[m] getAttrs = false) ∧
      evaluatePolicyRule twoRulePolicy getAttrs =
        ruleDisposition twoRulePolicy twoRulePolicy.rules[k] :=
  c4_first_match_precedence twoRulePolicy getAttrs 0 1 (by decide) Nat.zero_lt_one
    (by decide) rfl rfl

/-- C6.  Stage union closure: after normalization every rule carries, as a
duplicate-free set, exactly the union of the policy-wide omitStages and its
originally declared omitStages; and evaluation copies the stored omitStages
of the matched rule verbatim, with no further merging. -/
theorem c6_stage_union_closure (p : Policy) (i : Nat) (r : PolicyRule)
    (hi : p.rules[i]? = some r) :
    ∃ r', (normalizeRules p).rules[i]? = some r' ∧
      r'.omitStages.toFinset = p.omitStages.toFinset ∪ r.omitStages.toFinset ∧
      r'.omitStages.Nodup ∧
      ∀ (q : Policy) (attrs : Attributes) (rm : PolicyRule),
        q.rules.find? (fun x => ruleMatches x attrs) = some rm →
        (evaluatePolicyRule q attrs).omitStages = rm.omitStages := by
  refine ⟨{ r with omitStages := unionStages p.omitStages r.omitStages }, ?_, ?_, ?_, ?_⟩
  · simp [normalizeRules, List.getElem?_map, hi]
  · ext a
    simp [unionStages, List.mem_dedup]
  · exact List.nodup_dedup _
  · intro q attrs rm hf
    simp [evaluatePolicyRule, hf, ruleDisposition]

/-- C6, witness: Scenario 5, the policy-wide RequestReceived and the
declared ResponseComplete stages merge into the normalized rule. -/
theorem c6_stage_union_closure_witness :
    ∃ r', (normalizeRules stagePolicy).rules[0]? = some r' ∧
      r'.omitStages.toFinset =
        stagePolicy.omitStages.toFinset ∪ stageRule.omitStages.toFinset ∧
      r'.omitStages.Nodup ∧
      ∀ (q : Policy) (attrs : Attributes) (rm : PolicyRule),
        q.rules.find? (fun x => ruleMatches x attrs) = some rm →
        (evaluatePolicyRule q attrs).omitStages = rm.omitStages :=
  c6_stage_union_closure stagePolicy 0 stageRule (by decide)

/-- C3.  The claim says EvaluatePolicyRule has no observable side effect.
The code contradicts this: every call writes a non-empty debug dump of the
request attributes to standard output, opening with the banner line (the
returned disposition itself is a pure function of the rules and the
attributes, so the determinism half of the claim holds). -/
theorem c3_evaluate_writes_to_stdout (p : Policy) (attrs : Attributes) :
    strStartsWith (evaluatePolicyRuleRun p attrs).1 stdoutBanner = true ∧
      (evaluatePolicyRuleRun p attrs).1 ≠ [] := by
  have h1 : stdoutBanner <+:
      strLit "\n\n" ++ sepLine ++ strLit "\n\tattrs:\n\t\tUser: " := by
    have hb : strStartsWith
        (strLit "\n\n" ++ sepLine ++ strLit "\n\tattrs:\n\t\tUser: ")
        stdoutBanner = true := by decide
    exact List.isPrefixOf_iff_prefix.mp hb
  have hpre : stdoutBanner <+: evalStdout attrs := by
    rw [evalStdout]
    simp only [List.append_assoc]
    exact h1.trans (List.prefix_append _ _)
  refine ⟨List.isPrefixOf_iff_prefix.mpr hpre, fun h => ?_⟩
  have hnil : evalStdout attrs = [] := h
  rw [hnil] at hpre
  have : stdoutBanner = [] := List.prefix_nil.mp hpre
  exact absurd this (by decide)
